import Mathlib

/-!
Formal model of the rspamd asynchronous task-processing engine.  The
structural declarations come from `src/src/main.h`; the behaviour of the
declared operations (which is not part of the header) is modelled from the
design specification, as indicated on each definition.
-/

/-- Time in seconds an old worker is given to exit on graceful shutdown,
`SOFT_SHUTDOWN_TIME` in `main.h`. -/
def SOFT_SHUTDOWN_TIME : Nat := 10

/-- Per-connection IO timeout in seconds for a worker, `WORKER_IO_TIMEOUT`
in `main.h` ("60 seconds for worker's IO"). -/
def WORKER_IO_TIMEOUT : Nat := 60

/-- Default metric name, `DEFAULT_METRIC` in `main.h`. -/
def DEFAULT_METRIC : String := "default"

/-- Server statistics, `struct rspamd_stat` in `main.h`; each `guint`
counter is modelled as a natural number. -/
structure rspamd_stat where
  messages_scanned : Nat
  messages_spam : Nat
  messages_ham : Nat
  connections_count : Nat
  control_connections_count : Nat
  messages_learned : Nat
  fuzzy_hashes : Nat
  fuzzy_hashes_expired : Nat
deriving DecidableEq

/-- The all-zero statistics record of a freshly started server. -/
def rspamd_stat.zero : rspamd_stat := ⟨0, 0, 0, 0, 0, 0, 0, 0⟩

/-- Modelled from the spec: `struct rspamd_async_session` (only declared in
`main.h`, as the field `s` of `worker_task` and of `controller_session`; its
definition is not part of the given source).  It tracks the
pending-operation count (kept as an integer so that non-negativity is a
statement, not a typing artifact), whether the finalize callback has fired,
and how many times it has fired. -/
structure rspamd_async_session where
  pending : Int
  finalized : Bool
  fin_calls : Nat
deriving DecidableEq

/-- Modelled from the spec: a fresh async session with no pending
operations and its finalize callback not yet fired. -/
def new_async_session : rspamd_async_session := ⟨0, false, 0⟩

/-- Modelled from the spec: the operations available on an async session —
registering a pending asynchronous unit, fulfilling (removing) one, and
forced cancellation of the session. -/
inductive SessionOp where
  | register_op
  | remove_op
  | cancel_op
deriving DecidableEq

/-- Modelled from the spec: one async-session operation.  Registration
increments the pending count.  Fulfillment removes a registered unit:
removing when nothing is registered is a programming error and removes
nothing (mirroring a lookup that finds no registered event); otherwise the
count is decremented and, on the transition from one pending unit to zero,
the finalize callback fires.  Forced cancellation with units still pending
discards them and fires the finalize callback if it has not fired yet;
cancellation after the count has reached zero changes nothing. -/
def session_apply (s : rspamd_async_session) : SessionOp → rspamd_async_session
  | .register_op => { s with pending := s.pending + 1 }
  | .remove_op =>
      if s.pending ≤ 0 then s
      else
        if s.pending - 1 = 0 ∧ s.finalized = false then
          { pending := s.pending - 1, finalized := true, fin_calls := s.fin_calls + 1 }
        else
          { s with pending := s.pending - 1 }
  | .cancel_op =>
      if s.pending ≤ 0 then s
      else if s.finalized then { s with pending := 0 }
      else { pending := 0, finalized := true, fin_calls := s.fin_calls + 1 }

/-- Modelled from the spec: the session obtained by running a sequence of
operations on a fresh session (the reachable session states). -/
def session_run (ops : List SessionOp) : rspamd_async_session :=
  ops.foldl session_apply new_async_session

/-- The async-session invariant: the pending count is non-negative and the
finalize callback has fired exactly once when the finalized flag is set,
never otherwise. -/
def session_inv (s : rspamd_async_session) : Prop :=
  0 ≤ s.pending ∧ s.fin_calls = (if s.finalized then 1 else 0)

/-- Task states: the anonymous `enum` of `struct worker_task` in `main.h`. -/
inductive task_state where
  | READ_COMMAND
  | READ_HEADER
  | READ_MESSAGE
  | WRITE_REPLY
  | WRITE_ERROR
  | WAIT_FILTER
  | CLOSING_CONNECTION
deriving DecidableEq

/-- Save point for delayed filter processing, `struct save_point` in
`main.h`: `entry` is the pipeline position to resume from (the saved list
entry), `item` the check being awaited if the pipeline is suspended, and
`saved` how many times processing has been delayed. -/
structure save_point where
  entry : Nat
  item : Option Nat
  saved : Nat
deriving DecidableEq

/-- Modelled from the spec: the observable behaviour of one registered check
(the `filter` function of a `struct module_ctx` from `main.h`, abstracted by
what it does to the task).  A check either contributes a verdict
synchronously, fails (its contribution is recorded as failed), or registers
one pending asynchronous unit whose later completion contributes verdict
`v`. -/
inductive CheckBehavior where
  | sync (v : Bool)
  | failing
  | async (v : Bool)
deriving DecidableEq

/-- Whether a check registers an asynchronous unit. -/
def CheckBehavior.isAsync : CheckBehavior → Bool
  | .async _ => true
  | _ => false

/-- The verdict a check eventually contributes (a failing check contributes
none). -/
def CheckBehavior.verdict_of : CheckBehavior → Bool
  | .sync v => v
  | .failing => false
  | .async v => v

/-- Whether a check's contribution is recorded as succeeded (a failing
check's contribution is recorded as failed). -/
def CheckBehavior.contrib_of : CheckBehavior → Bool
  | .failing => false
  | _ => true

/-- Modelled from the spec: the fields of `struct worker_task` (from
`main.h`) that the task-processing engine's behaviour depends on.
`results` models the metric-result hash table as an association list from
check index to whether that check's contribution succeeded; `invocations`
is the trace of check invocations performed for this task; `fin_calls`
counts invocations of the task's `fin_callback`; `stat` is the server
statistics record this task's worker updates; `pending_units` the number of
asynchronous units registered with the task's async session and not yet
settled; `arena_freed` whether the task's `task_pool` has been released. -/
structure worker_task where
  state : task_state
  save : save_point
  results : List (Nat × Bool)
  invocations : List Nat
  verdict : Bool
  pass_all_filters : Bool
  is_skipped : Bool
  fin_calls : Nat
  stat : rspamd_stat
  pending_units : Nat
  arena_freed : Bool
deriving DecidableEq

/-- Modelled from the spec: `construct_task` — a fresh task in
`READ_COMMAND` with an empty result mapping, a zeroed save point, no
pending units, the fin callback not yet invoked, and no statistics update
performed yet. -/
def construct_task (pass_all : Bool) : worker_task :=
  { state := .READ_COMMAND
    save := ⟨0, none, 0⟩
    results := []
    invocations := []
    verdict := false
    pass_all_filters := pass_all
    is_skipped := false
    fin_calls := 0
    stat := rspamd_stat.zero
    pending_units := 0
    arena_freed := false }

/-- Modelled from the spec: `free_task (task, is_soft)`.  Soft release is
the normal-completion path: the finalize callback runs (performing the
once-per-task statistics update, here the messages-scanned counter) and the
task's arena is freed.  Hard release frees the arena immediately, discards
the pending asynchronous units without awaiting them, does not invoke the
finalize callback and moves no statistics counter. -/
def free_task (t : worker_task) (is_soft : Bool) : worker_task :=
  if is_soft then
    { t with fin_calls := t.fin_calls + 1
             stat := { t.stat with messages_scanned := t.stat.messages_scanned + 1 }
             pending_units := 0
             arena_freed := true
             state := .CLOSING_CONNECTION }
  else
    { t with pending_units := 0
             arena_freed := true
             state := .CLOSING_CONNECTION }

/-- Modelled from the spec: `free_task_hard` — cancel-and-free without
finalize: the arena is freed, pending units are discarded without being
awaited, the finalize callback does not run and no counter moves. -/
def free_task_hard (t : worker_task) : worker_task :=
  { t with pending_units := 0
           arena_freed := true
           state := .CLOSING_CONNECTION }

/-- Modelled from the spec: `free_task_soft` — finalize-then-free. -/
def free_task_soft (t : worker_task) : worker_task :=
  { t with fin_calls := t.fin_calls + 1
           stat := { t.stat with messages_scanned := t.stat.messages_scanned + 1 }
           pending_units := 0
           arena_freed := true
           state := .CLOSING_CONNECTION }

/-- Modelled from the spec: finalization of the check pipeline.  It fires
when every registered check has reported (the session's pending count is
zero with the whole registry processed): the fin callback is invoked once
and the once-per-task statistics update (the messages-scanned counter) is
performed. -/
def filters_finalize (t : worker_task) : worker_task :=
  { t with fin_calls := t.fin_calls + 1
           stat := { t.stat with messages_scanned := t.stat.messages_scanned + 1 }
           save := { t.save with item := none } }

/-- Modelled from the spec: the check-pipeline driver over the remaining
checks; `rest` is the part of the registry from position `i` on.  A check
is skipped (not invoked) when an earlier verdict is present and
`pass_all_filters` is not set; otherwise it is invoked: a synchronous check
contributes its result at once, a failing check has its contribution
recorded as failed and the pipeline continues, and an asynchronous check
registers one pending unit and suspends the pipeline, the save point
recording the position to resume from and the check being awaited.  When
the registry is exhausted the pipeline finalizes. -/
def process_filters_aux : List CheckBehavior → Nat → worker_task → worker_task
  | [], _, t => filters_finalize t
  | b :: rest, i, t =>
    if t.verdict = true ∧ t.pass_all_filters = false then
      process_filters_aux rest (i + 1) { t with save := { t.save with entry := i + 1 } }
    else
      match b with
      | .sync v =>
          process_filters_aux rest (i + 1)
            { t with invocations := t.invocations ++ [i]
                     results := t.results ++ [(i, true)]
                     verdict := t.verdict || v
                     save := { t.save with entry := i + 1 } }
      | .failing =>
          process_filters_aux rest (i + 1)
            { t with invocations := t.invocations ++ [i]
                     results := t.results ++ [(i, false)]
                     save := { t.save with entry := i + 1 } }
      | .async _ =>
          { t with invocations := t.invocations ++ [i]
                   pending_units := t.pending_units + 1
                   save := { entry := i + 1, item := some i, saved := t.save.saved + 1 } }

/-- The verdict the asynchronous check at position `i` of the registry
contributes when it completes. -/
def async_verdict_at (checks : List CheckBehavior) (i : Nat) : Bool :=
  match checks[i]? with
  | some (.async v) => v
  | _ => false

/-- Modelled from the spec: completion of the pending asynchronous check.
Its contribution is recorded in the result mapping, the pending unit is
fulfilled, and the pipeline driver is re-entered at the save point,
resuming rather than restarting. -/
def complete_async_filter (checks : List CheckBehavior) (t : worker_task) : worker_task :=
  match t.save.item with
  | none => t
  | some i =>
      process_filters_aux (checks.drop t.save.entry) t.save.entry
        { t with save := { t.save with item := none }
                 results := t.results ++ [(i, true)]
                 verdict := t.verdict || async_verdict_at checks i
                 pending_units := t.pending_units - 1 }

/-- Modelled from the spec: run the suspended pipeline to quiescence —
repeatedly complete the pending asynchronous check and re-enter the driver
until no check is pending.  `fuel` bounds the number of completions (one
asynchronous check pends at a time, so the registry length suffices). -/
def settle_filters (checks : List CheckBehavior) : Nat → worker_task → worker_task
  | 0, t => t
  | fuel + 1, t =>
      if t.save.item = none then t
      else settle_filters checks fuel (complete_async_filter checks t)

/-- Modelled from the spec: entry of the pipeline driver — processing
starts at the save point (position zero on first entry). -/
def process_filters (checks : List CheckBehavior) (t : worker_task) : worker_task :=
  process_filters_aux (checks.drop t.save.entry) t.save.entry t

/-- A freshly constructed task that has read its message and entered
`WAIT_FILTER`. -/
def wait_filter_task (pass_all : Bool) : worker_task :=
  { construct_task pass_all with state := .WAIT_FILTER }

/-- Modelled from the spec: the whole filtering phase of a freshly
constructed task that has reached `WAIT_FILTER` — run the driver and settle
every asynchronous completion. -/
def run_filters (checks : List CheckBehavior) (pass_all : Bool) : worker_task :=
  settle_filters checks checks.length
    (process_filters checks (wait_filter_task pass_all))

/-- Reference recursion for the indices of the checks the pipeline invokes,
threading the evolving verdict. -/
def simple_invocations (pa : Bool) : List CheckBehavior → Nat → Bool → List Nat
  | [], _, _ => []
  | b :: rest, i, vd =>
    if vd = true ∧ pa = false then simple_invocations pa rest (i + 1) vd
    else i :: simple_invocations pa rest (i + 1) (vd || b.verdict_of)

/-- Reference recursion for the contributions recorded in the result
mapping. -/
def simple_results (pa : Bool) : List CheckBehavior → Nat → Bool → List (Nat × Bool)
  | [], _, _ => []
  | b :: rest, i, vd =>
    if vd = true ∧ pa = false then simple_results pa rest (i + 1) vd
    else (i, b.contrib_of) :: simple_results pa rest (i + 1) (vd || b.verdict_of)

/-- Reference recursion for the final verdict of the pipeline. -/
def simple_verdict (pa : Bool) : List CheckBehavior → Bool → Bool
  | [], vd => vd
  | b :: rest, vd =>
    if vd = true ∧ pa = false then simple_verdict pa rest vd
    else simple_verdict pa rest (vd || b.verdict_of)

/-- Reference recursion for how many times the pipeline is suspended (the
`saved` counter of the save point). -/
def delayed_count (pa : Bool) : List CheckBehavior → Bool → Nat
  | [], _ => 0
  | b :: rest, vd =>
    if vd = true ∧ pa = false then delayed_count pa rest vd
    else (if b.isAsync then 1 else 0) + delayed_count pa rest (vd || b.verdict_of)

/-- Modelled from the spec: the events driving the task state machine — the
IO layer delivering a complete (well-formed or malformed) command line,
header block or message body, the check pipeline reporting that every check
has settled, and the IO layer reporting that the reply was written. -/
inductive task_event where
  | command_line (wf : Bool)
  | header_block (wf : Bool)
  | message_body (wf : Bool)
  | checks_done
  | write_done
deriving DecidableEq

/-- Modelled from the spec: the task state-machine transition function.
Read states advance on a complete well-formed unit and move to
`WRITE_ERROR` on malformed input; `WAIT_FILTER` moves to `WRITE_REPLY` when
all checks have reported; completion of the write closes the connection;
`CLOSING_CONNECTION` is terminal. -/
def task_sm_step : task_state → task_event → task_state
  | .READ_COMMAND, .command_line true => .READ_HEADER
  | .READ_COMMAND, .command_line false => .WRITE_ERROR
  | .READ_HEADER, .header_block true => .READ_MESSAGE
  | .READ_HEADER, .header_block false => .WRITE_ERROR
  | .READ_MESSAGE, .message_body true => .WAIT_FILTER
  | .READ_MESSAGE, .message_body false => .WRITE_ERROR
  | .WAIT_FILTER, .checks_done => .WRITE_REPLY
  | .WRITE_REPLY, .write_done => .CLOSING_CONNECTION
  | .WRITE_ERROR, .write_done => .CLOSING_CONNECTION
  | s, _ => s

/-- The list of states traversed from `s` under a sequence of events, the
starting state included. -/
def task_sm_trace (s : task_state) : List task_event → List task_state
  | [] => [s]
  | e :: es => s :: task_sm_trace (task_sm_step s e) es

/-- Modelled from the spec: the scenario of a well-formed short message.
The command line, header block and message body arrive complete and
well-formed; on entering `WAIT_FILTER` the check pipeline runs; when no
check is left pending the reply is composed and written.  Returns the
visited state trace and the task after the filtering phase (if some check
suspended the pipeline, the trace stops at `WAIT_FILTER` and the
completions are settled). -/
def scenario_short_message (checks : List CheckBehavior) (pa : Bool) :
    List task_state × worker_task :=
  let t := process_filters checks (wait_filter_task pa)
  if t.save.item = none then
    (task_sm_trace .READ_COMMAND
      [.command_line true, .header_block true, .message_body true, .checks_done,
        .write_done], t)
  else
    (task_sm_trace .READ_COMMAND
      [.command_line true, .header_block true, .message_body true],
      settle_filters checks checks.length t)

/-- Controller session states: the anonymous `enum` of
`struct controller_session` in `main.h`. -/
inductive controller_state where
  | STATE_COMMAND
  | STATE_LEARN
  | STATE_REPLY
  | STATE_QUIT
  | STATE_OTHER
  | STATE_WAIT
  | STATE_WEIGHTS
deriving DecidableEq

/-- Modelled from the spec: a command registered through
`register_custom_controller_command` in `main.h` — its two independent
policy flags, privilege required and message body required (the handler
itself is abstracted by the count of its invocations on the session). -/
structure custom_command where
  privilleged : Bool
  require_message : Bool
deriving DecidableEq

/-- Modelled from the spec: the fields of `struct controller_session` (from
`main.h`) that command dispatch depends on: the state, the authorization
flag, whether the socket is still open and the session arena still live,
and counters of error replies sent and handler invocations performed. -/
structure controller_session where
  state : controller_state
  authorized : Bool
  sock_open : Bool
  arena_freed : Bool
  error_replies : Nat
  handler_calls : Nat
deriving DecidableEq

/-- Modelled from the spec: dispatch of a registered command on a
controller session.  The engine enforces the two policy flags before
invoking the handler: a privileged command on an unauthorized session
produces an immediate error reply and the session returns to
`STATE_COMMAND` with its socket and arena untouched.  Otherwise the handler
is invoked (switching to `STATE_OTHER` to collect a message body first when
the command requires one, to `STATE_REPLY` otherwise). -/
def dispatch_custom_command (s : controller_session) (c : custom_command) :
    controller_session :=
  if c.privilleged = true ∧ s.authorized = false then
    { s with error_replies := s.error_replies + 1
             state := .STATE_COMMAND }
  else if c.require_message then
    { s with state := .STATE_OTHER
             handler_calls := s.handler_calls + 1 }
  else
    { s with state := .STATE_REPLY
             handler_calls := s.handler_calls + 1 }

/-! Lemmas and claim theorems. -/

lemma session_inv_new : session_inv new_async_session := by
  simp [session_inv, new_async_session]

lemma session_inv_apply (s : rspamd_async_session) (op : SessionOp)
    (h : session_inv s) : session_inv (session_apply s op) := by
  obtain ⟨h1, h2⟩ := h
  cases op <;>
    simp only [session_apply, session_inv] <;>
    split_ifs <;>
    simp_all <;>
    omega

lemma session_inv_foldl (ops : List SessionOp) :
    ∀ s : rspamd_async_session, session_inv s →
      session_inv (ops.foldl session_apply s) := by
  induction ops with
  | nil => intro s hs; simpa using hs
  | cons op ops ih =>
      intro s hs
      exact ih _ (session_inv_apply s op hs)

lemma session_inv_run (ops : List SessionOp) : session_inv (session_run ops) :=
  session_inv_foldl ops new_async_session session_inv_new

lemma drop_cons_succ {α : Type} :
    ∀ (i : Nat) (l : List α) (b : α) (rest : List α),
      l.drop i = b :: rest → l.drop (i + 1) = rest := by
  intro i
  induction i with
  | zero =>
      intro l b rest h
      simp only [List.drop_zero] at h
      subst h
      simp
  | succ n ih =>
      intro l b rest h
      cases l with
      | nil => simp at h
      | cons a l =>
          simp only [List.drop_succ_cons] at h ⊢
          exact ih l b rest h

lemma get_of_drop {α : Type} :
    ∀ (i : Nat) (l : List α) (b : α) (rest : List α),
      l.drop i = b :: rest → l[i]? = some b := by
  intro i
  induction i with
  | zero =>
      intro l b rest h
      simp only [List.drop_zero] at h
      subst h
      simp
  | succ n ih =>
      intro l b rest h
      cases l with
      | nil => simp at h
      | cons a l =>
          simp only [List.drop_succ_cons] at h
          simpa using ih l b rest h

lemma settle_filters_of_item_none (checks : List CheckBehavior) (fuel : Nat)
    (t : worker_task) (h : t.save.item = none) :
    settle_filters checks fuel t = t := by
  cases fuel <;> simp [settle_filters, h]

lemma process_filters_aux_no_async :
    ∀ (rest : List CheckBehavior) (i : Nat) (t : worker_task),
      (∀ b ∈ rest, b.isAsync = false) →
      (process_filters_aux rest i t).save.item = none ∧
      (process_filters_aux rest i t).fin_calls = t.fin_calls + 1 ∧
      (process_filters_aux rest i t).stat.messages_scanned
        = t.stat.messages_scanned + 1 := by
  intro rest
  induction rest with
  | nil =>
      intro i t _
      simp [process_filters_aux, filters_finalize]
  | cons b rest ih =>
      intro i t h
      have hb : b.isAsync = false := h b (by simp)
      have hrest : ∀ x ∈ rest, x.isAsync = false := fun x hx => h x (by simp [hx])
      simp only [process_filters_aux]
      split
      · obtain ⟨a1, a2, a3⟩ := ih (i + 1) _ hrest
        exact ⟨a1, by simpa using a2, by simpa using a3⟩
      · cases b with
        | sync v =>
            obtain ⟨a1, a2, a3⟩ := ih (i + 1) _ hrest
            exact ⟨a1, by simpa using a2, by simpa using a3⟩
        | failing =>
            obtain ⟨a1, a2, a3⟩ := ih (i + 1) _ hrest
            exact ⟨a1, by simpa using a2, by simpa using a3⟩
        | async v => simp [CheckBehavior.isAsync] at hb

lemma settle_process_eq (checks : List CheckBehavior) :
    ∀ (rest : List CheckBehavior) (i : Nat) (t : worker_task) (fuel : Nat),
      checks.drop i = rest →
      t.save.entry = i → t.save.item = none → t.pending_units = 0 →
      rest.length ≤ fuel →
      settle_filters checks fuel (process_filters_aux rest i t) =
        { state := t.state
          save := ⟨i + rest.length, none,
                   t.save.saved + delayed_count t.pass_all_filters rest t.verdict⟩
          results := t.results ++ simple_results t.pass_all_filters rest i t.verdict
          invocations :=
            t.invocations ++ simple_invocations t.pass_all_filters rest i t.verdict
          verdict := simple_verdict t.pass_all_filters rest t.verdict
          pass_all_filters := t.pass_all_filters
          is_skipped := t.is_skipped
          fin_calls := t.fin_calls + 1
          stat := { t.stat with messages_scanned := t.stat.messages_scanned + 1 }
          pending_units := 0
          arena_freed := t.arena_freed } := by
  intro rest
  induction rest with
  | nil =>
      intro i t fuel hdrop hentry hitem hpend hfuel
      simp only [process_filters_aux]
      rw [settle_filters_of_item_none checks fuel _ (by simp [filters_finalize])]
      simp [filters_finalize, simple_results, simple_invocations, simple_verdict,
        delayed_count, hentry, hpend]
  | cons b rest ih =>
      intro i t fuel hdrop hentry hitem hpend hfuel
      have hdrop' : checks.drop (i + 1) = rest := drop_cons_succ i checks b rest hdrop
      have hget : checks[i]? = some b := get_of_drop i checks b rest hdrop
      have hfuel' : rest.length ≤ fuel := by
        simp only [List.length_cons] at hfuel; omega
      simp only [process_filters_aux]
      split
      · rename_i hc
        rw [ih (i + 1) _ fuel hdrop' (by simp) (by simpa using hitem)
          (by simpa using hpend) hfuel']
        simp [simple_results, simple_invocations, simple_verdict, delayed_count,
          hc.1, hc.2]
        omega
      · rename_i hc
        cases b with
        | sync v =>
            rw [ih (i + 1) _ fuel hdrop' (by simp) (by simpa using hitem)
              (by simpa using hpend) hfuel']
            simp only [simple_results, simple_invocations, simple_verdict,
              delayed_count, if_neg hc, CheckBehavior.verdict_of,
              CheckBehavior.contrib_of, CheckBehavior.isAsync]
            simp [List.append_assoc]
            omega
        | failing =>
            rw [ih (i + 1) _ fuel hdrop' (by simp) (by simpa using hitem)
              (by simpa using hpend) hfuel']
            simp only [simple_results, simple_invocations, simple_verdict,
              delayed_count, if_neg hc, CheckBehavior.verdict_of,
              CheckBehavior.contrib_of, CheckBehavior.isAsync]
            simp [List.append_assoc]
            omega
        | async v =>
            cases fuel with
            | zero => simp at hfuel
            | succ fuel =>
                have hfuel'' : rest.length ≤ fuel := by
                  simp only [List.length_cons] at hfuel; omega
                simp only [settle_filters]
                rw [if_neg (by simp)]
                simp only [complete_async_filter]
                rw [hdrop']
                rw [ih (i + 1) _ fuel hdrop'
                  (by simp) (by simp) (by simp [hpend]) hfuel'']
                simp only [simple_results, simple_invocations, simple_verdict,
                  delayed_count, if_neg hc, CheckBehavior.verdict_of,
                  CheckBehavior.contrib_of, CheckBehavior.isAsync,
                  async_verdict_at, hget]
                simp [List.append_assoc]
                omega

lemma run_filters_eq (checks : List CheckBehavior) (pa : Bool) :
    run_filters checks pa =
      { state := .WAIT_FILTER
        save := ⟨checks.length, none, delayed_count pa checks false⟩
        results := simple_results pa checks 0 false
        invocations := simple_invocations pa checks 0 false
        verdict := simple_verdict pa checks false
        pass_all_filters := pa
        is_skipped := false
        fin_calls := 1
        stat := { rspamd_stat.zero with messages_scanned := 1 }
        pending_units := 0
        arena_freed := false } := by
  have h := settle_process_eq checks checks 0 (wait_filter_task pa) checks.length
    (by simp) (by simp [wait_filter_task, construct_task])
    (by simp [wait_filter_task, construct_task])
    (by simp [wait_filter_task, construct_task]) (le_refl _)
  have hpf : process_filters checks (wait_filter_task pa)
      = process_filters_aux checks 0 (wait_filter_task pa) := by
    simp [process_filters, wait_filter_task, construct_task]
  rw [run_filters, hpf, h]
  simp [wait_filter_task, construct_task, rspamd_stat.zero]

lemma simple_invocations_true_count :
    ∀ (rest : List CheckBehavior) (i : Nat) (vd : Bool) (j : Nat),
      (simple_invocations true rest i vd).count j
        = if i ≤ j ∧ j < i + rest.length then 1 else 0 := by
  intro rest
  induction rest with
  | nil =>
      intro i vd j
      simp only [simple_invocations, List.count_nil, List.length_nil]
      rw [if_neg (by omega)]
  | cons b rest ih =>
      intro i vd j
      simp only [simple_invocations, List.length_cons]
      rw [if_neg (by simp)]
      simp only [List.count_cons, ih, beq_iff_eq]
      split_ifs <;> simp_all <;> omega

lemma simple_invocations_ge (pa : Bool) :
    ∀ (rest : List CheckBehavior) (i : Nat) (vd : Bool) (j : Nat),
      j ∈ simple_invocations pa rest i vd → i ≤ j := by
  intro rest
  induction rest with
  | nil => intro i vd j h; simp [simple_invocations] at h
  | cons b rest ih =>
      intro i vd j h
      simp only [simple_invocations] at h
      by_cases hc : vd = true ∧ pa = false
      · rw [if_pos hc] at h
        have := ih (i + 1) vd j h
        omega
      · rw [if_neg hc] at h
        rcases List.mem_cons.mp h with h1 | h1
        · omega
        · have := ih (i + 1) _ j h1
          omega

lemma simple_invocations_pairwise (pa : Bool) :
    ∀ (rest : List CheckBehavior) (i : Nat) (vd : Bool),
      (simple_invocations pa rest i vd).Pairwise (· < ·) := by
  intro rest
  induction rest with
  | nil => intro i vd; simp [simple_invocations]
  | cons b rest ih =>
      intro i vd
      simp only [simple_invocations]
      by_cases hc : vd = true ∧ pa = false
      · rw [if_pos hc]; exact ih (i + 1) vd
      · rw [if_neg hc]
        refine List.pairwise_cons.mpr ⟨?_, ih (i + 1) _⟩
        intro j hj
        have := simple_invocations_ge pa rest (i + 1) _ j hj
        omega

lemma process_filters_aux_inv_mem :
    ∀ (rest : List CheckBehavior) (i : Nat) (t : worker_task) (j : Nat),
      j ∈ (process_filters_aux rest i t).invocations →
      j ∈ t.invocations ∨ i ≤ j := by
  intro rest
  induction rest with
  | nil =>
      intro i t j h
      simp only [process_filters_aux, filters_finalize] at h
      exact Or.inl h
  | cons b rest ih =>
      intro i t j h
      simp only [process_filters_aux] at h
      split at h
      · rcases ih (i + 1) _ j h with h1 | h1
        · exact Or.inl (by simpa using h1)
        · exact Or.inr (by omega)
      · cases b with
        | sync v =>
            rcases ih (i + 1) _ j h with h1 | h1
            · simp only [List.mem_append, List.mem_singleton] at h1
              rcases h1 with h2 | h2
              · exact Or.inl h2
              · exact Or.inr (by omega)
            · exact Or.inr (by omega)
        | failing =>
            rcases ih (i + 1) _ j h with h1 | h1
            · simp only [List.mem_append, List.mem_singleton] at h1
              rcases h1 with h2 | h2
              · exact Or.inl h2
              · exact Or.inr (by omega)
            · exact Or.inr (by omega)
        | async v =>
            simp only [List.mem_append, List.mem_singleton] at h
            rcases h with h2 | h2
            · exact Or.inl h2
            · exact Or.inr (by omega)

lemma complete_async_inv_mem (checks : List CheckBehavior) (t : worker_task)
    (j : Nat) (h : j ∈ (complete_async_filter checks t).invocations) :
    j ∈ t.invocations ∨ t.save.entry ≤ j := by
  unfold complete_async_filter at h
  cases hi : t.save.item with
  | none => rw [hi] at h; exact Or.inl h
  | some i =>
      rw [hi] at h
      have := process_filters_aux_inv_mem (checks.drop t.save.entry)
        t.save.entry _ j h
      simpa using this

lemma simple_results_mem (pa : Bool) :
    ∀ (rest : List CheckBehavior) (i : Nat) (vd : Bool) (j : Nat)
      (b : CheckBehavior),
      j ∈ simple_invocations pa rest i vd → rest[j - i]? = some b →
      (j, b.contrib_of) ∈ simple_results pa rest i vd := by
  intro rest
  induction rest with
  | nil => intro i vd j b h _; simp [simple_invocations] at h
  | cons b0 rest ih =>
      intro i vd j b h hget
      simp only [simple_invocations] at h
      simp only [simple_results]
      by_cases hc : vd = true ∧ pa = false
      · rw [if_pos hc] at h ⊢
        have hj : i + 1 ≤ j := simple_invocations_ge pa rest (i + 1) vd j h
        have hidx : j - i = (j - (i + 1)) + 1 := by omega
        rw [hidx, List.getElem?_cons_succ] at hget
        exact ih (i + 1) vd j b h hget
      · rw [if_neg hc] at h ⊢
        rcases List.mem_cons.mp h with h1 | h1
        · subst h1
          simp only [Nat.sub_self, List.getElem?_cons_zero, Option.some.injEq] at hget
          subst hget
          exact List.mem_cons_self _ _
        · have hj : i + 1 ≤ j := simple_invocations_ge pa rest (i + 1) _ j h1
          have hidx : j - i = (j - (i + 1)) + 1 := by omega
          rw [hidx, List.getElem?_cons_succ] at hget
          exact List.mem_cons_of_mem _ (ih (i + 1) _ j b h1 hget)

lemma simple_invocations_congr (pa : Bool) :
    ∀ (rest rest' : List CheckBehavior) (i : Nat) (vd : Bool),
      rest.length = rest'.length →
      (∀ k : Nat, (rest[k]?).map CheckBehavior.verdict_of
        = (rest'[k]?).map CheckBehavior.verdict_of) →
      simple_invocations pa rest i vd = simple_invocations pa rest' i vd := by
  intro rest
  induction rest with
  | nil =>
      intro rest' i vd hlen _
      cases rest' with
      | nil => rfl
      | cons b' rest' => simp at hlen
  | cons b rest ih =>
      intro rest' i vd hlen hpt
      cases rest' with
      | nil => simp at hlen
      | cons b' rest' =>
          have hb : b.verdict_of = b'.verdict_of := by
            have := hpt 0
            simpa using this
          have hpt' : ∀ k : Nat, (rest[k]?).map CheckBehavior.verdict_of
              = (rest'[k]?).map CheckBehavior.verdict_of := by
            intro k
            have := hpt (k + 1)
            simpa using this
          have hlen' : rest.length = rest'.length := by simpa using hlen
          simp only [simple_invocations]
          by_cases hc : vd = true ∧ pa = false
          · rw [if_pos hc, if_pos hc]
            exact ih rest' (i + 1) vd hlen' hpt'
          · rw [if_neg hc, if_neg hc, hb]
            rw [ih rest' (i + 1) (vd || b'.verdict_of) hlen' hpt']

lemma getElem?_set_cases {α : Type} :
    ∀ (l : List α) (j k : Nat) (a : α),
      (l.set j a)[k]? = if j = k ∧ j < l.length then some a else l[k]? := by
  intro l
  induction l with
  | nil => intro j k a; rw [if_neg (by simp)]; simp
  | cons b l ih =>
      intro j k a
      cases j with
      | zero =>
          cases k with
          | zero => simp
          | succ k => simp
      | succ j =>
          cases k with
          | zero => simp
          | succ k =>
              simp only [List.set_cons_succ, List.getElem?_cons_succ,
                List.length_cons]
              rw [ih j k a]
              exact if_congr (by omega) rfl rfl

/-- C10: the per-connection worker IO deadline is exactly 60 seconds
(`WORKER_IO_TIMEOUT`) and the graceful-shutdown grace period before forced
termination is exactly 10 seconds (`SOFT_SHUTDOWN_TIME`). -/
theorem c10_timeout_constants :
    WORKER_IO_TIMEOUT = 60 ∧ SOFT_SHUTDOWN_TIME = 10 :=
  ⟨rfl, rfl⟩

/-- C1: over a task's lifetime — constructed once, possibly accumulating
pending units, released exactly once through `free_task` — the finalize
callback fires at most once, and it fires exactly once iff the release was
the soft path (`is_soft` true); on the hard path it never fires. -/
theorem c1_finalize_once_iff_soft (pa is_soft : Bool) (p : Nat) :
    (free_task { construct_task pa with pending_units := p } is_soft).fin_calls ≤ 1 ∧
    ((free_task { construct_task pa with pending_units := p } is_soft).fin_calls = 1
      ↔ is_soft = true) := by
  cases is_soft <;> simp [free_task, construct_task]

/-- C3: hard release (`free_task` with `is_soft` false) of any task, with
any number of still-pending asynchronous units, frees the task's arena,
discards the pending units, never invokes the finalize callback, and
increments no server statistics counter. -/
theorem c3_hard_release_no_finalize_no_stats (t : worker_task) :
    (free_task t false).arena_freed = true ∧
    (free_task t false).pending_units = 0 ∧
    (free_task t false).fin_calls = t.fin_calls ∧
    (free_task t false).stat = t.stat := by
  simp [free_task]

/-- C9: the one-argument wrappers are exact specializations of the
two-argument release function: `free_task_hard t` equals `free_task t
false` and `free_task_soft t` equals `free_task t true`. -/
theorem c9_release_wrappers (t : worker_task) :
    free_task_hard t = free_task t false ∧ free_task_soft t = free_task t true := by
  simp [free_task, free_task_hard, free_task_soft]

/-- C2: for every reachable async-session state, the pending count is
non-negative and the finalize callback has fired at most once; from a
not-yet-finalized reachable state a step fires the finalize callback iff it
is a fulfillment at pending count one (the transition from 1 to 0) or a
forced cancellation with units pending; and cancellation after the count
has reached zero changes nothing. -/
theorem c2_session_invariants :
    (∀ ops : List SessionOp, 0 ≤ (session_run ops).pending) ∧
    (∀ ops : List SessionOp, (session_run ops).fin_calls ≤ 1) ∧
    (∀ (ops : List SessionOp) (op : SessionOp),
      (session_run ops).finalized = false →
      ((session_apply (session_run ops) op).fin_calls
          = (session_run ops).fin_calls + 1 ↔
        (op = SessionOp.remove_op ∧ (session_run ops).pending = 1) ∨
        (op = SessionOp.cancel_op ∧ 1 ≤ (session_run ops).pending))) ∧
    (∀ ops : List SessionOp, (session_run ops).pending = 0 →
      session_apply (session_run ops) SessionOp.cancel_op = session_run ops) := by
  refine ⟨?_, ?_, ?_, ?_⟩
  · intro ops
    exact (session_inv_run ops).1
  · intro ops
    have h := (session_inv_run ops).2
    split at h <;> omega
  · intro ops op hfin
    obtain ⟨h1, h2⟩ := session_inv_run ops
    rw [hfin] at h2
    simp only [if_neg Bool.false_ne_true] at h2
    cases op with
    | register_op => simp [session_apply]
    | remove_op =>
        simp only [session_apply]
        split_ifs with hp hc
        · simp
          omega
        · simp
          omega
        · simp only [hfin, and_true] at hc
          simp
          omega
    | cancel_op =>
        simp only [session_apply]
        split_ifs with hp hf
        · simp
          omega
        · rw [hfin] at hf
          simp at hf
        · simp
          omega
  · intro ops h0
    simp [session_apply, h0]

/-- Witness for C2 at concrete inputs: a session with one registered and
one fulfilled unit ignores a later cancellation, and forced cancellation of
a session with one pending unit fires the finalize callback. -/
theorem c2_session_invariants_witness :
    (session_apply (session_run [SessionOp.register_op, SessionOp.remove_op])
        SessionOp.cancel_op
      = session_run [SessionOp.register_op, SessionOp.remove_op]) ∧
    ((session_apply (session_run [SessionOp.register_op]) SessionOp.cancel_op).fin_calls
        = (session_run [SessionOp.register_op]).fin_calls + 1 ↔
      (SessionOp.cancel_op = SessionOp.remove_op ∧
        (session_run [SessionOp.register_op]).pending = 1) ∨
      (SessionOp.cancel_op = SessionOp.cancel_op ∧
        1 ≤ (session_run [SessionOp.register_op]).pending)) :=
  ⟨c2_session_invariants.2.2.2 [SessionOp.register_op, SessionOp.remove_op] (by decide),
   c2_session_invariants.2.2.1 [SessionOp.register_op] SessionOp.cancel_op (by decide)⟩

/-- C4: when `pass_all_filters` is set, a task entering `WAIT_FILTER` has
every registered check invoked exactly once over the whole filtering phase,
regardless of the verdicts contributed by earlier checks, and the pipeline
then finalizes exactly once. -/
theorem c4_pass_all_filters_every_check_once (checks : List CheckBehavior)
    (j : Nat) (h : j < checks.length) :
    (run_filters checks true).invocations.count j = 1 ∧
    (run_filters checks true).fin_calls = 1 := by
  rw [run_filters_eq]
  refine ⟨?_, rfl⟩
  show (simple_invocations true checks 0 false).count j = 1
  rw [simple_invocations_true_count checks 0 false j]
  rw [if_pos ⟨Nat.zero_le j, by omega⟩]

/-- Witness for C4 at a concrete registry of two checks, the first of which
contributes a spam verdict: the second check is still invoked exactly
once. -/
theorem c4_pass_all_filters_witness :
    (run_filters [CheckBehavior.sync true, CheckBehavior.sync false]
        true).invocations.count 1 = 1 ∧
    (run_filters [CheckBehavior.sync true, CheckBehavior.sync false]
        true).fin_calls = 1 :=
  c4_pass_all_filters_every_check_once
    [CheckBehavior.sync true, CheckBehavior.sync false] 1 (by decide)

/-- C5: pipeline re-entry is idempotent with respect to completed checks —
over the whole filtering phase, asynchronous completions included, the
invoked check positions are strictly increasing (so the driver resumes
instead of restarting) and no check is ever invoked twice; moreover
re-entering the driver through an asynchronous completion only invokes
checks at or past the save point. -/
theorem c5_reentry_resumes_never_reinvokes (checks : List CheckBehavior)
    (pa : Bool) :
    (run_filters checks pa).invocations.Pairwise (· < ·) ∧
    (run_filters checks pa).invocations.Nodup ∧
    (∀ (t : worker_task) (j : Nat),
      j ∈ (complete_async_filter checks t).invocations →
      j ∈ t.invocations ∨ t.save.entry ≤ j) := by
  have hp : (run_filters checks pa).invocations.Pairwise (· < ·) := by
    rw [run_filters_eq]
    exact simple_invocations_pairwise pa checks 0 false
  refine ⟨hp, ?_, fun t j hj => complete_async_inv_mem checks t j hj⟩
  exact hp.imp (fun hab => Nat.ne_of_lt hab)

/-- Witness for C5 at a concrete registry and a concrete suspended task:
re-entry adds no invocation below the save point. -/
theorem c5_reentry_witness :
    (run_filters [CheckBehavior.async true] true).invocations.Nodup ∧
    (0 ∈ ({ construct_task true with
              save := ⟨1, some 0, 1⟩,
              invocations := [0] } : worker_task).invocations ∨
      ({ construct_task true with
           save := ⟨1, some 0, 1⟩,
           invocations := [0] } : worker_task).save.entry ≤ 0) :=
  ⟨(c5_reentry_resumes_never_reinvokes [CheckBehavior.async true] true).2.1,
   (c5_reentry_resumes_never_reinvokes [CheckBehavior.async true] true).2.2
     { construct_task true with save := ⟨1, some 0, 1⟩, invocations := [0] }
     0 (by decide)⟩

/-- C6: a task that receives a well-formed short message, where no check
registers an asynchronous unit, traverses exactly the state path
`READ_COMMAND, READ_HEADER, READ_MESSAGE, WAIT_FILTER, WRITE_REPLY,
CLOSING_CONNECTION`, its finalize callback is invoked exactly once, and the
server's messages-scanned counter is incremented by exactly one. -/
theorem c6_scenario_well_formed_no_async (checks : List CheckBehavior)
    (pa : Bool) (h : ∀ b ∈ checks, b.isAsync = false) :
    (scenario_short_message checks pa).1 =
      [task_state.READ_COMMAND, task_state.READ_HEADER, task_state.READ_MESSAGE,
        task_state.WAIT_FILTER, task_state.WRITE_REPLY,
        task_state.CLOSING_CONNECTION] ∧
    (scenario_short_message checks pa).2.fin_calls = 1 ∧
    (scenario_short_message checks pa).2.stat.messages_scanned = 1 := by
  have hpf : process_filters checks (wait_filter_task pa)
      = process_filters_aux checks 0 (wait_filter_task pa) := by
    simp [process_filters, wait_filter_task, construct_task]
  obtain ⟨a1, a2, a3⟩ :=
    process_filters_aux_no_async checks 0 (wait_filter_task pa) h
  rw [← hpf] at a1 a2 a3
  simp only [scenario_short_message]
  rw [if_pos a1]
  refine ⟨?_, ?_, ?_⟩
  · simp [task_sm_trace, task_sm_step]
  · simpa [wait_filter_task, construct_task] using a2
  · simpa [wait_filter_task, construct_task] using a3

/-- Witness for C6 at a concrete registry of two synchronous checks (one of
which fails). -/
theorem c6_scenario_witness :
    (scenario_short_message [CheckBehavior.sync true, CheckBehavior.failing]
        false).1 =
      [task_state.READ_COMMAND, task_state.READ_HEADER, task_state.READ_MESSAGE,
        task_state.WAIT_FILTER, task_state.WRITE_REPLY,
        task_state.CLOSING_CONNECTION] ∧
    (scenario_short_message [CheckBehavior.sync true, CheckBehavior.failing]
        false).2.fin_calls = 1 ∧
    (scenario_short_message [CheckBehavior.sync true, CheckBehavior.failing]
        false).2.stat.messages_scanned = 1 :=
  c6_scenario_well_formed_no_async
    [CheckBehavior.sync true, CheckBehavior.failing] false (by decide)

/-- C7: a privileged command issued on an unauthorized controller session
is answered with an immediate error reply, the handler is not invoked, the
session state returns to `STATE_COMMAND`, and the session — its socket and
arena — remains open for further commands. -/
theorem c7_unauthorized_privileged_rejected (s : controller_session)
    (c : custom_command) (h1 : s.authorized = false)
    (h2 : c.privilleged = true) :
    (dispatch_custom_command s c).handler_calls = s.handler_calls ∧
    (dispatch_custom_command s c).error_replies = s.error_replies + 1 ∧
    (dispatch_custom_command s c).state = controller_state.STATE_COMMAND ∧
    (dispatch_custom_command s c).sock_open = s.sock_open ∧
    (dispatch_custom_command s c).arena_freed = s.arena_freed := by
  simp [dispatch_custom_command, h1, h2]

/-- Witness for C7 at a concrete unauthorized session and a concrete
privileged command. -/
theorem c7_unauthorized_witness :
    (dispatch_custom_command
        ⟨controller_state.STATE_COMMAND, false, true, false, 0, 0⟩
        ⟨true, true⟩).handler_calls = 0 ∧
    (dispatch_custom_command
        ⟨controller_state.STATE_COMMAND, false, true, false, 0, 0⟩
        ⟨true, true⟩).error_replies = 0 + 1 ∧
    (dispatch_custom_command
        ⟨controller_state.STATE_COMMAND, false, true, false, 0, 0⟩
        ⟨true, true⟩).state = controller_state.STATE_COMMAND ∧
    (dispatch_custom_command
        ⟨controller_state.STATE_COMMAND, false, true, false, 0, 0⟩
        ⟨true, true⟩).sock_open = true ∧
    (dispatch_custom_command
        ⟨controller_state.STATE_COMMAND, false, true, false, 0, 0⟩
        ⟨true, true⟩).arena_freed = false :=
  c7_unauthorized_privileged_rejected _ _ rfl rfl

/-- C8: a failing check does not abort the pipeline — the filtering phase
still finalizes exactly once, the control flow (which checks run) is
exactly what it would be had the failing check merely contributed nothing,
and whenever the failing check was invoked its contribution is recorded as
failed in the result mapping. -/
theorem c8_failing_check_pipeline_continues (pa : Bool)
    (checks : List CheckBehavior) (j : Nat)
    (h : checks[j]? = some CheckBehavior.failing) :
    (run_filters checks pa).fin_calls = 1 ∧
    (run_filters checks pa).invocations
      = (run_filters (checks.set j (CheckBehavior.sync false)) pa).invocations ∧
    (j ∈ (run_filters checks pa).invocations →
      (j, false) ∈ (run_filters checks pa).results) := by
  refine ⟨?_, ?_, ?_⟩
  · rw [run_filters_eq]
  · rw [run_filters_eq, run_filters_eq]
    show simple_invocations pa checks 0 false
      = simple_invocations pa (checks.set j (CheckBehavior.sync false)) 0 false
    apply simple_invocations_congr
    · simp
    · intro k
      rw [getElem?_set_cases]
      by_cases hk : j = k ∧ j < checks.length
      · rw [if_pos hk, ← hk.1, h]
        rfl
      · rw [if_neg hk]
  · rw [run_filters_eq]
    intro hmem
    have hres := simple_results_mem pa checks 0 false j CheckBehavior.failing
      (by simpa using hmem) (by simpa using h)
    simpa [CheckBehavior.contrib_of] using hres

/-- Witness for C8 at a concrete one-check registry whose single check
fails. -/
theorem c8_failing_check_witness :
    (run_filters [CheckBehavior.failing] false).fin_calls = 1 ∧
    (run_filters [CheckBehavior.failing] false).invocations
      = (run_filters ([CheckBehavior.failing].set 0 (CheckBehavior.sync false))
          false).invocations ∧
    (0 ∈ (run_filters [CheckBehavior.failing] false).invocations →
      (0, false) ∈ (run_filters [CheckBehavior.failing] false).results) :=
  c8_failing_check_pipeline_continues false [CheckBehavior.failing] 0 (by decide)
